import Mathlib

/-!
Verification of the cake-eating value-function-iteration (VFI) solver:
`Notebooks/DynProgr/vfi_funcs.py` (objective, Bellman operator) and
`Notebooks/DynProgr/dynprog_cake1.py` (fixed-point driver loop).

Modelling conventions:
* Machine floats are modelled by exact rationals `ℚ`; the literal `1e-10`
  becomes `1 / 10 ^ 10` and `0.9`, `10.0`, … their exact rational values.
* `np.log` is an abstract parameter `log : ℚ → ℚ`: every claim treats the
  objective as a black box handed to the optimizer, so no claim depends on
  the values of `log`.
* `scipy.optimize.minimize(..., method='L-BFGS-B', bounds=((lb, ub),))` is an
  abstract `Optimizer`: a function from the objective, the initial guess and
  the bounds to a result record holding `x`, `fun` and the `success` flag.
  The source reads `results.x` and `results.fun` and never reads
  `results.success`.
* `scipy.interpolate.interp1d(x, y, kind='linear', fill_value='extrapolate')`
  is modelled from scipy's semantics: with the default `assume_sorted=False`
  the points are stably sorted by `x` (`np.argsort(x, kind="mergesort")`),
  construction rejects `len(x) != len(y)` and `len(x) < 2` with `ValueError`,
  and evaluation is `_call_linear`: `searchsorted` then clip the index to
  `[1, len(x)-1]` and use the straight line through the two chosen points
  (which extrapolates beyond the edges).
-/

/-- Result record of `scipy.optimize.minimize`: the fields the source reads
(`results_W_pr.x`, `results_W_pr.fun`) plus the convergence flag
(`results_W_pr.success`) that the source never reads.  `fval` stands for the
Python attribute `fun`. -/
structure OptResult where
  x : ℚ
  fval : ℚ
  success : Bool
deriving DecidableEq

/-- An abstract bounded scalar minimizer standing for
`minimize(objective, x0, method='L-BFGS-B', bounds=((lb, ub),))`:
arguments are the objective, the initial guess `x0`, the lower bound `lb`
and the upper bound `ub`. -/
def Optimizer : Type := (ℚ → ℚ) → ℚ → ℚ → ℚ → OptResult

/-- The float literal `1e-10` of `vfi_funcs.py`, idealized to `10⁻¹⁰ : ℚ`. -/
def eps10 : ℚ := 1 / 10 ^ 10

/-- `np.searchsorted(a, v, side='left')` for a sorted array `a`: the number
of elements strictly below `v`, i.e. the first index whose element is `≥ v`. -/
def searchsorted (a : List ℚ) (v : ℚ) : ℕ :=
  a.countP (fun e => decide (e < v))

/-- `interp1d._call_linear` for `kind='linear'`, `fill_value='extrapolate'`
(`x` already sorted): find the insertion index, clip it to `[1, len(x)-1]`,
and evaluate the straight line through points `lo = i-1` and `hi = i`.
Out-of-range queries therefore use the nearest edge segment's slope. -/
def call_linear (x y : List ℚ) (xnew : ℚ) : ℚ :=
  let i := min (max (searchsorted x xnew) 1) (x.length - 1)
  let lo := i - 1
  let hi := i
  let xlo := x.getD lo 0
  let xhi := x.getD hi 0
  let ylo := y.getD lo 0
  let yhi := y.getD hi 0
  (yhi - ylo) / (xhi - xlo) * (xnew - xlo) + ylo

/-- Stable insertion of one `(x, y)` pair into a key-sorted list: a new pair
goes after existing pairs with an equal key, matching the stability of
`np.argsort(x, kind="mergesort")`. -/
def insertPair (p : ℚ × ℚ) : List (ℚ × ℚ) → List (ℚ × ℚ)
  | [] => [p]
  | q :: qs => if p.1 < q.1 then p :: q :: qs else q :: insertPair p qs

/-- Stable sort of `(x, y)` pairs by the `x` key: models interp1d's
`ind = np.argsort(x, kind="mergesort"); x = x[ind]; y = np.take(y, ind)`
performed when `assume_sorted=False` (the default used by the source). -/
def sortPairs : List (ℚ × ℚ) → List (ℚ × ℚ)
  | [] => []
  | p :: ps => insertPair p (sortPairs ps)

/-- Construction of `interp1d(x, y, kind='linear', fill_value='extrapolate')`:
raises `ValueError` when `len(x) != len(y)` or `len(x) < 2`; a non-sorted `x`
is NOT rejected — the points are stably sorted by `x` before use. -/
def interp1d_build (x y : List ℚ) : Except String (List ℚ × List ℚ) :=
  if x.length ≠ y.length then
    .error "x and y arrays must be equal in length along interpolation axis"
  else if x.length < 2 then
    .error "x and y arrays must have at least 2 entries"
  else
    .ok (sortPairs (x.zip y)).unzip

/-- Evaluation of the interpolator built from `(x, y)` at `xnew`: sort the
points by `x` (interp1d with `assume_sorted=False`), then `_call_linear`. -/
def interp1d_eval (x y : List ℚ) (xnew : ℚ) : ℚ :=
  let ps := (sortPairs (x.zip y)).unzip
  call_linear ps.1 ps.2 xnew

/-- `get_neg_V_cur(W_pr, *args)` of `vfi_funcs.py`: build the linear
extrapolating interpolator from `(W_vec, V_next_vec)`, evaluate it at `W_pr`,
and return `-(log(W_cur - W_pr) + beta * V_next)`.  `np.log` is the abstract
parameter `log`. -/
def get_neg_V_cur (log : ℚ → ℚ) (W_pr beta W_cur : ℚ)
    (W_vec V_next_vec : List ℚ) : ℚ :=
  let V_next := interp1d_eval W_vec V_next_vec W_pr;
  -(log (W_cur - W_pr) + beta * V_next)

/-- Lower search bound `W_lb = 1e-10` of `get_V_cur_W_pr`. -/
def W_lb_src : ℚ := eps10

/-- Upper search bound `W_ub = W_cur - 1e-10` of `get_V_cur_W_pr`. -/
def W_ub_src (W_cur : ℚ) : ℚ := W_cur - eps10

/-- Initial guess `W_pr_init = 0.5 * W_cur` of `get_V_cur_W_pr`. -/
def W_pr_init_src (W_cur : ℚ) : ℚ := (1 / 2 : ℚ) * W_cur

/-- The body of the `for ind in range(W_size)` loop of `get_V_cur_W_pr`:
take the state `W_cur = W_vec[ind]`, form the initial guess and the bounds,
and call the bounded minimizer on `get_neg_V_cur`. -/
def bellman_point (opt : Optimizer) (log : ℚ → ℚ) (V_next : List ℚ)
    (beta : ℚ) (W_vec : List ℚ) (ind : ℕ) : OptResult :=
  let W_cur := W_vec.getD ind 0
  opt (fun W_pr => get_neg_V_cur log W_pr beta W_cur W_vec V_next)
    (W_pr_init_src W_cur) W_lb_src (W_ub_src W_cur)

/-- `get_V_cur_W_pr(V_next, beta, W_vec)` of `vfi_funcs.py`: for every grid
index store `results_W_pr.x` into `W_prime[ind]` and `-results_W_pr.fun` into
`V_cur[ind]`; return `(V_cur, W_prime)`.  The `success` flag of the result is
never consulted. -/
def get_V_cur_W_pr (opt : Optimizer) (log : ℚ → ℚ) (V_next : List ℚ)
    (beta : ℚ) (W_vec : List ℚ) : List ℚ × List ℚ :=
  let W_size := W_vec.length
  ((List.range W_size).map fun ind =>
      -(bellman_point opt log V_next beta W_vec ind).fval,
   (List.range W_size).map fun ind =>
      (bellman_point opt log V_next beta W_vec ind).x)

/-- Modelled from the spec: no code in the repository raises
`OptimizationFailureError` — `vfi_funcs.py` never checks
`results_W_pr.success`.  Per the spec's §4.2/§7 the Bellman operator must
fail, with the grid index and state value, as soon as the per-state optimizer
does not report convergence; otherwise it returns what the source computes. -/
def bellman_spec (opt : Optimizer) (log : ℚ → ℚ) (V_next : List ℚ)
    (beta : ℚ) (W_vec : List ℚ) : Except (ℕ × ℚ) (List ℚ × List ℚ) :=
  match (List.range W_vec.length).find?
      (fun ind => !(bellman_point opt log V_next beta W_vec ind).success) with
  | some ind => .error (ind, W_vec.getD ind 0)
  | none => .ok (get_V_cur_W_pr opt log V_next beta W_vec)

/-- One line of the driver's per-iteration report: the iteration number, the
previous and new value vectors, the policy vector and the distance. -/
structure SweepRecord where
  iter : ℕ
  V_prev : List ℚ
  V_cur : List ℚ
  W_prime : List ℚ
  dist : ℚ
deriving DecidableEq

/-- The mutable locals of the driver loop of `dynprog_cake1.py`: `V_next`,
`iter_VFI`, `dist`, plus the latest `(V_cur, W_prime)` pair — `none` models
the Python names being still undefined before the first sweep — and the trace
of all sweeps performed (most recent first). -/
structure VFIState where
  V_next : List ℚ
  iter_VFI : ℕ
  dist : ℚ
  last : Option (List ℚ × List ℚ)
  trace : List SweepRecord
deriving DecidableEq

/-- One iteration of the driver's `while` body:
`iter_VFI += 1`; `V_cur, W_prime = vf.get_V_cur_W_pr(V_next, beta, W_vec)`;
`dist = ((V_cur - V_next) ** 2).sum()`; `V_next = V_cur` — the distance is
the elementwise difference, squared elementwise, then summed, exactly as the
numpy expression computes it. -/
def vfi_step (opt : Optimizer) (log : ℚ → ℚ) (beta : ℚ) (W_vec : List ℚ)
    (s : VFIState) : VFIState :=
  let r := get_V_cur_W_pr opt log s.V_next beta W_vec
  let V_cur := r.1
  let W_prime := r.2
  let dist := ((List.zipWith (· - ·) V_cur s.V_next).map (fun d => d ^ 2)).sum
  { V_next := V_cur
    iter_VFI := s.iter_VFI + 1
    dist := dist
    last := some (V_cur, W_prime)
    trace := ⟨s.iter_VFI + 1, s.V_next, V_cur, W_prime, dist⟩ :: s.trace }

/-- The driver's `while (iter_VFI < maxiter) and (dist >= tol_VFI)` loop.
The loop is written with a fuel parameter to make it structurally recursive;
the driver passes `fuel = maxiter`, which can never be exhausted while the
condition still holds, because each sweep raises `iter_VFI` by one and the
condition requires `iter_VFI < maxiter` (`vfi_go_fuel_saturates` below makes
this exact), so the fuel version has the same behaviour as the `while`. -/
def vfi_go (opt : Optimizer) (log : ℚ → ℚ) (beta : ℚ) (W_vec : List ℚ)
    (maxiter : ℕ) (tol : ℚ) : ℕ → VFIState → VFIState
  | 0, s => s
  | fuel + 1, s =>
    if s.iter_VFI < maxiter ∧ tol ≤ s.dist then
      vfi_go opt log beta W_vec maxiter tol fuel (vfi_step opt log beta W_vec s)
    else s

/-- The driver's initialization (`dynprog_cake1.py` lines 66–68):
`V_next = np.zeros(W_size)`, `iter_VFI = 0`, `dist = 10.0`; no sweep has run,
so `V_cur` and `W_prime` are undefined and the trace is empty. -/
def vfi_init (W_vec : List ℚ) : VFIState :=
  { V_next := List.replicate W_vec.length 0
    iter_VFI := 0
    dist := 10
    last := none
    trace := [] }

/-- The whole VFI driver: initialize, then run the `while` loop. -/
def vfi_driver (opt : Optimizer) (log : ℚ → ℚ) (beta : ℚ) (W_vec : List ℚ)
    (maxiter : ℕ) (tol : ℚ) : VFIState :=
  vfi_go opt log beta W_vec maxiter tol maxiter (vfi_init W_vec)

/-- The driver's final statement `V = V_cur.copy()`: defined only when at
least one sweep assigned `V_cur`; `none` models the `NameError` the script
hits when the loop body never ran. -/
def vfi_V (s : VFIState) : Option (List ℚ) :=
  s.last.map (fun p => p.1)

/-- Stand-in for `np.log` used when instantiating theorems at concrete
inputs; no claim depends on the objective's values. -/
def log0 : ℚ → ℚ := fun _ => 0

/-- A concrete optimizer that always reports success and returns the
iterate `3` with objective value `0`, used to instantiate theorems. -/
def constOpt3 : Optimizer := fun _f _x0 _lb _ub => ⟨3, 0, true⟩

/-- The same optimizer as `constOpt3` except that it reports failure;
`constOpt3` and `constOpt3f` differ only in the `success` flag. -/
def constOpt3f : Optimizer := fun _f _x0 _lb _ub => ⟨3, 0, false⟩

/-- A concrete optimizer that never reports convergence and returns the
initial guess unchanged — the shape of an L-BFGS-B run that hits its
iteration limit immediately. -/
def badOpt : Optimizer := fun _f x0 _lb _ub => ⟨x0, 0, false⟩

/-- A concrete optimizer that clamps the initial guess into the feasible
interval and reports success; like L-BFGS-B it never returns an iterate
outside the bounds. -/
def clampOpt : Optimizer :=
  fun f x0 lb ub => ⟨max lb (min x0 ub), f (max lb (min x0 ub)), true⟩

/-! ### Helper lemmas -/

/-- `getD` of a map over `List.range` evaluates the mapped function. -/
lemma getD_map_range (f : ℕ → ℚ) (n i : ℕ) (h : i < n) :
    (((List.range n).map f).getD i 0) = f i := by
  rw [List.getD_eq_getElem?_getD, List.getElem?_map, List.getElem?_range h]
  rfl

/-- `searchsorted` on a strictly increasing list, queried with the element at
index `i`, returns `i`. -/
lemma searchsorted_getD (x : List ℚ) (hx : x.Pairwise (· < ·)) :
    ∀ i, i < x.length → searchsorted x (x.getD i 0) = i := by
  induction x with
  | nil => intro i hi; simp at hi
  | cons a xs ih =>
    intro i hi
    rcases List.pairwise_cons.mp hx with ⟨ha, hxs⟩
    cases i with
    | zero =>
      simp only [List.getD_cons_zero, searchsorted]
      rw [List.countP_eq_zero]
      intro e he
      rcases List.mem_cons.mp he with rfl | hmem
      · simp
      · simpa using not_lt_of_lt (ha e hmem)
    | succ j =>
      simp only [List.getD_cons_succ, searchsorted, List.countP_cons]
      have hj : j < xs.length := by simpa using hi
      have hv : xs.getD j 0 ∈ xs := by
        rw [List.getD_eq_getElem _ _ hj]; exact List.getElem_mem hj
      have hav : a < xs.getD j 0 := ha _ hv
      rw [decide_eq_true hav, if_pos rfl]
      have := ih hxs j hj
      simp only [searchsorted] at this
      omega

/-- `searchsorted` with a query above every element returns the length. -/
lemma searchsorted_top (x : List ℚ) (v : ℚ) (h : ∀ e ∈ x, e < v) :
    searchsorted x v = x.length := by
  simp only [searchsorted]
  rw [List.countP_eq_length]
  intro e he
  simpa using h e he

/-- `searchsorted` with a query at or below every element returns `0`. -/
lemma searchsorted_bot (x : List ℚ) (v : ℚ) (h : ∀ e ∈ x, v ≤ e) :
    searchsorted x v = 0 := by
  simp only [searchsorted]
  rw [List.countP_eq_zero]
  intro e he
  simpa using h e he

/-- Inserting a pair whose key is below the head key puts it in front. -/
lemma insertPair_head (p q : ℚ × ℚ) (qs : List (ℚ × ℚ)) (h : p.1 < q.1) :
    insertPair p (q :: qs) = p :: q :: qs := by
  simp [insertPair, h]

/-- A list of pairs already sorted strictly by key is a fixed point of the
stable sort. -/
lemma sortPairs_sorted_id (l : List (ℚ × ℚ))
    (h : l.Chain' (fun p q => p.1 < q.1)) : sortPairs l = l := by
  induction l with
  | nil => rfl
  | cons p ps ih =>
    simp only [sortPairs]
    rw [ih h.tail]
    cases ps with
    | nil => rfl
    | cons q qs => exact insertPair_head p q qs (List.chain'_cons.mp h).1

/-- On a strictly increasing grid with matching value vector, evaluating the
interpolator is `_call_linear` on the original data: the stable sort and the
zip/unzip round-trip are the identity. -/
lemma interp1d_eval_sorted (x y : List ℚ) (xnew : ℚ)
    (hx : x.Pairwise (· < ·)) (hlen : y.length = x.length) :
    interp1d_eval x y xnew = call_linear x y xnew := by
  have hle : x.length ≤ y.length := le_of_eq hlen.symm
  have hchain : (x.zip y).Chain' (fun p q => p.1 < q.1) := by
    have hmap : ((x.zip y).map Prod.fst).Chain' (· < ·) := by
      rw [List.map_fst_zip x y hle]
      exact hx.chain'
    exact (List.chain'_map Prod.fst).mp hmap
  have hz : (x.zip y).unzip = (x, y) := List.unzip_zip hlen.symm
  simp only [interp1d_eval, sortPairs_sorted_id _ hchain, hz]

/-! ### Interpolator claims -/

/-- Claim C4, counterexample: constructing the interpolator on the
non-increasing grid `[3, 1, 5]` does not raise — interp1d (with its default
`assume_sorted=False`) sorts the points by grid value and succeeds, and
queries are answered afterwards (the query `2` falls between the sorted grid
points `1` and `3` and is answered with `15`). -/
theorem interp1d_nonmonotone_accepted_counterexample :
    ¬ (([3, 1, 5] : List ℚ).Pairwise (· < ·)) ∧
    interp1d_build [3, 1, 5] [10, 20, 30] = .ok ([1, 3, 5], [20, 10, 30]) ∧
    interp1d_eval [3, 1, 5] [10, 20, 30] 2 = 15 := by
  refine ⟨by decide, by rfl, ?_⟩
  norm_num [interp1d_eval, call_linear, sortPairs, insertPair, searchsorted]

/-- Claim C4, amended: constructing the interpolator fails when the grid and
values sequences have different lengths, or when the grid has fewer than two
elements, before any query is answered; but a non-strictly-increasing grid is
NOT rejected — the points are stably sorted by grid value and construction
succeeds. -/
theorem interp1d_build_checks (x y : List ℚ) :
    (x.length ≠ y.length →
      interp1d_build x y =
        .error "x and y arrays must be equal in length along interpolation axis") ∧
    (x.length = y.length → x.length < 2 →
      interp1d_build x y =
        .error "x and y arrays must have at least 2 entries") ∧
    (x.length = y.length → 2 ≤ x.length →
      interp1d_build x y = .ok (sortPairs (x.zip y)).unzip) := by
  refine ⟨fun h => ?_, fun h1 h2 => ?_, fun h1 h2 => ?_⟩
  · unfold interp1d_build
    rw [if_pos h]
  · unfold interp1d_build
    rw [if_neg (by simp [h1]), if_pos h2]
  · unfold interp1d_build
    rw [if_neg (by simp [h1]), if_neg (by omega)]

/-- Claim C4, witness for the amended statement: a length mismatch and a
too-short grid are rejected; the unsorted grid `[1, 0.5, 2]` is accepted. -/
theorem interp1d_build_checks_witness :
    interp1d_build [1, 2] [10] =
      .error "x and y arrays must be equal in length along interpolation axis" ∧
    interp1d_build [1] [10] =
      .error "x and y arrays must have at least 2 entries" ∧
    interp1d_build [1, 1 / 2, 2] [10, 20, 30] =
      .ok (sortPairs (([1, 1 / 2, 2] : List ℚ).zip [10, 20, 30])).unzip :=
  ⟨(interp1d_build_checks [1, 2] [10]).1 (by decide),
   (interp1d_build_checks [1] [10]).2.1 (by decide) (by decide),
   (interp1d_build_checks [1, 1 / 2, 2] [10, 20, 30]).2.2 (by decide) (by decide)⟩

/-- Claim C6: for a query point outside `[grid[0], grid[N-1]]` the
interpolator returns the linear extrapolation along the nearest edge
segment's slope — above the grid it uses the straight line through the last
two points, below the grid the line through the first two points; no
clamping and no error. -/
theorem interp1d_extrapolates_edges (x y : List ℚ) (xnew : ℚ)
    (hlen : y.length = x.length) (hsort : x.Pairwise (· < ·))
    (h2 : 2 ≤ x.length) :
    ((∀ e ∈ x, e < xnew) →
      interp1d_eval x y xnew =
        (y.getD (x.length - 1) 0 - y.getD (x.length - 2) 0) /
            (x.getD (x.length - 1) 0 - x.getD (x.length - 2) 0) *
            (xnew - x.getD (x.length - 2) 0) +
          y.getD (x.length - 2) 0) ∧
    ((∀ e ∈ x, xnew ≤ e) →
      interp1d_eval x y xnew =
        (y.getD 1 0 - y.getD 0 0) / (x.getD 1 0 - x.getD 0 0) *
            (xnew - x.getD 0 0) +
          y.getD 0 0) := by
  rw [interp1d_eval_sorted x y xnew hsort hlen]
  constructor
  · intro h
    have hss := searchsorted_top x xnew h
    simp only [call_linear, hss]
    have hmm : min (max x.length 1) (x.length - 1) = x.length - 1 := by omega
    rw [hmm]
    have hsub : x.length - 1 - 1 = x.length - 2 := by omega
    rw [hsub]
  · intro h
    have hss := searchsorted_bot x xnew h
    simp only [call_linear, hss]
    have hmm : min (max 0 1) (x.length - 1) = 1 := by omega
    rw [hmm]

/-- Claim C6, witness: on grid `[0,1,2]` with values `[0,1,2]` the query
`3.0` returns the extrapolated `3.0`, not the clamped edge value `2.0`. -/
theorem interp1d_extrapolates_edges_witness :
    interp1d_eval [0, 1, 2] [0, 1, 2] 3 = 3 ∧ ((3 : ℚ) ≠ 2) := by
  have h := (interp1d_extrapolates_edges [0, 1, 2] [0, 1, 2] 3 (by decide)
    (by decide) (by decide)).1 (by decide)
  refine ⟨?_, by norm_num⟩
  rw [h]
  norm_num

/-- Claim C7: on a strictly increasing grid of length at least two, with a
values vector of matching length, querying the interpolator exactly at grid
point `i` returns the stored value `values[i]` (exactly, in rational
arithmetic). -/
theorem interp1d_roundtrip (x y : List ℚ) (hsort : x.Pairwise (· < ·))
    (hlen : y.length = x.length) (h2 : 2 ≤ x.length)
    (i : ℕ) (hi : i < x.length) :
    interp1d_eval x y (x.getD i 0) = y.getD i 0 := by
  rw [interp1d_eval_sorted x y _ hsort hlen]
  have hss := searchsorted_getD x hsort i hi
  cases i with
  | zero =>
    simp only [call_linear, hss]
    have hmm : min (max 0 1) (x.length - 1) = 1 := by omega
    rw [hmm]
    simp
  | succ j =>
    simp only [call_linear, hss]
    have hmm : min (max (j + 1) 1) (x.length - 1) = j + 1 := by omega
    rw [hmm]
    have hj1 : j < x.length := by omega
    have hlt : x.getD j 0 < x.getD (j + 1) 0 := by
      rw [List.getD_eq_getElem x 0 hj1, List.getD_eq_getElem x 0 hi]
      have := List.pairwise_iff_get.mp hsort ⟨j, hj1⟩ ⟨j + 1, hi⟩
        (by simp [Fin.lt_def])
      simpa [List.get_eq_getElem] using this
    have hne : x.getD (j + 1) 0 - x.getD j 0 ≠ 0 :=
      sub_ne_zero.mpr (ne_of_gt hlt)
    simp only [Nat.add_sub_cancel]
    rw [div_mul_cancel₀ _ hne]
    ring

/-- Claim C7, witness: on grid `[0, 1, 2]` with values `[5, 7, 9]`, querying
at grid point index `1` returns the stored `7`. -/
theorem interp1d_roundtrip_witness :
    interp1d_eval [0, 1, 2] [5, 7, 9] (([0, 1, 2] : List ℚ).getD 1 0) =
      ([5, 7, 9] : List ℚ).getD 1 0 :=
  interp1d_roundtrip [0, 1, 2] [5, 7, 9] (by decide) (by decide) (by decide)
    1 (by decide)

/-! ### Driver loop lemmas -/

/-- With no fuel the loop returns its state unchanged. -/
lemma vfi_go_zero (opt : Optimizer) (log : ℚ → ℚ) (beta : ℚ)
    (W_vec : List ℚ) (maxiter : ℕ) (tol : ℚ) (s : VFIState) :
    vfi_go opt log beta W_vec maxiter tol 0 s = s := rfl

/-- Unfolding one round of the loop: run the body if the `while` condition
`iter_VFI < maxiter and dist >= tol` holds, else exit. -/
lemma vfi_go_succ (opt : Optimizer) (log : ℚ → ℚ) (beta : ℚ)
    (W_vec : List ℚ) (maxiter : ℕ) (tol : ℚ) (fuel : ℕ) (s : VFIState) :
    vfi_go opt log beta W_vec maxiter tol (fuel + 1) s =
      if s.iter_VFI < maxiter ∧ tol ≤ s.dist then
        vfi_go opt log beta W_vec maxiter tol fuel (vfi_step opt log beta W_vec s)
      else s := rfl

/-- Any property preserved by the loop body holds at loop exit. -/
lemma vfi_go_preserves (opt : Optimizer) (log : ℚ → ℚ) (beta : ℚ)
    (W_vec : List ℚ) (maxiter : ℕ) (tol : ℚ) (P : VFIState → Prop)
    (hstep : ∀ s, P s → P (vfi_step opt log beta W_vec s)) :
    ∀ fuel s, P s → P (vfi_go opt log beta W_vec maxiter tol fuel s) := by
  intro fuel
  induction fuel with
  | zero => intro s hs; exact hs
  | succ f ih =>
    intro s hs
    rw [vfi_go_succ]
    by_cases hc : s.iter_VFI < maxiter ∧ tol ≤ s.dist
    · rw [if_pos hc]
      exact ih _ (hstep s hs)
    · rw [if_neg hc]
      exact hs

/-- The iteration counter never exceeds `maxiter`: the body only runs under
`iter_VFI < maxiter` and each sweep increments the counter by exactly one. -/
lemma vfi_go_iter_le (opt : Optimizer) (log : ℚ → ℚ) (beta : ℚ)
    (W_vec : List ℚ) (maxiter : ℕ) (tol : ℚ) :
    ∀ fuel s, s.iter_VFI ≤ maxiter →
      (vfi_go opt log beta W_vec maxiter tol fuel s).iter_VFI ≤ maxiter := by
  intro fuel
  induction fuel with
  | zero => intro s h; exact h
  | succ f ih =>
    intro s h
    rw [vfi_go_succ]
    by_cases hc : s.iter_VFI < maxiter ∧ tol ≤ s.dist
    · rw [if_pos hc]
      refine ih _ ?_
      have hstep : (vfi_step opt log beta W_vec s).iter_VFI = s.iter_VFI + 1 := rfl
      omega
    · rw [if_neg hc]
      exact h

/-- If the `while` condition is false, the loop exits immediately. -/
lemma vfi_go_stop (opt : Optimizer) (log : ℚ → ℚ) (beta : ℚ)
    (W_vec : List ℚ) (maxiter : ℕ) (tol : ℚ) (fuel : ℕ) (s : VFIState)
    (h : ¬ (s.iter_VFI < maxiter ∧ tol ≤ s.dist)) :
    vfi_go opt log beta W_vec maxiter tol fuel s = s := by
  cases fuel with
  | zero => rfl
  | succ f => rw [vfi_go_succ, if_neg h]

/-- Fuel beyond `maxiter - iter_VFI` is never consumed: with that much fuel
the fuelled loop coincides with the unbounded `while` loop, which exits by
itself once `iter_VFI` reaches `maxiter`. -/
lemma vfi_go_fuel_saturates (opt : Optimizer) (log : ℚ → ℚ) (beta : ℚ)
    (W_vec : List ℚ) (maxiter : ℕ) (tol : ℚ) :
    ∀ fuel s, maxiter ≤ s.iter_VFI + fuel →
      vfi_go opt log beta W_vec maxiter tol (fuel + 1) s =
        vfi_go opt log beta W_vec maxiter tol fuel s := by
  intro fuel
  induction fuel with
  | zero =>
    intro s h
    rw [vfi_go_zero, vfi_go_succ, if_neg]
    intro hc
    omega
  | succ f ih =>
    intro s h
    rw [vfi_go_succ, vfi_go_succ opt log beta W_vec maxiter tol f s]
    by_cases hc : s.iter_VFI < maxiter ∧ tol ≤ s.dist
    · rw [if_pos hc, if_pos hc]
      refine ih _ ?_
      have hstep : (vfi_step opt log beta W_vec s).iter_VFI = s.iter_VFI + 1 := rfl
      omega
    · rw [if_neg hc, if_neg hc]

/-- The value vector returned by the Bellman operator has one entry per grid
point. -/
lemma get_V_cur_W_pr_fst_length (opt : Optimizer) (log : ℚ → ℚ)
    (V_next : List ℚ) (beta : ℚ) (W_vec : List ℚ) :
    (get_V_cur_W_pr opt log V_next beta W_vec).1.length = W_vec.length := by
  simp [get_V_cur_W_pr]

/-- The policy vector returned by the Bellman operator has one entry per
grid point. -/
lemma get_V_cur_W_pr_snd_length (opt : Optimizer) (log : ℚ → ℚ)
    (V_next : List ℚ) (beta : ℚ) (W_vec : List ℚ) :
    (get_V_cur_W_pr opt log V_next beta W_vec).2.length = W_vec.length := by
  simp [get_V_cur_W_pr]

/-- Entry `i` of the returned value vector is the negated optimizer value at
grid point `i`. -/
lemma get_V_cur_W_pr_fst_getD (opt : Optimizer) (log : ℚ → ℚ)
    (V_next : List ℚ) (beta : ℚ) (W_vec : List ℚ) (i : ℕ)
    (hi : i < W_vec.length) :
    (get_V_cur_W_pr opt log V_next beta W_vec).1.getD i 0 =
      -(bellman_point opt log V_next beta W_vec i).fval := by
  simp only [get_V_cur_W_pr]
  exact getD_map_range _ _ _ hi

/-- Entry `i` of the returned policy vector is the optimizer iterate at grid
point `i`. -/
lemma get_V_cur_W_pr_snd_getD (opt : Optimizer) (log : ℚ → ℚ)
    (V_next : List ℚ) (beta : ℚ) (W_vec : List ℚ) (i : ℕ)
    (hi : i < W_vec.length) :
    (get_V_cur_W_pr opt log V_next beta W_vec).2.getD i 0 =
      (bellman_point opt log V_next beta W_vec i).x := by
  simp only [get_V_cur_W_pr]
  exact getD_map_range _ _ _ hi

/-- The numpy expression `((a - b) ** 2).sum()` on two vectors of length `n`
is the index-wise sum of squared differences. -/
lemma sumsq_eq : ∀ (n : ℕ) (a b : List ℚ), a.length = n → b.length = n →
    ((List.zipWith (· - ·) a b).map (fun d => d ^ 2)).sum =
      ∑ i ∈ Finset.range n, (a.getD i 0 - b.getD i 0) ^ 2 := by
  intro n
  induction n with
  | zero =>
    intro a b ha hb
    rw [List.length_eq_zero] at ha hb
    subst ha; subst hb
    simp
  | succ m ih =>
    intro a b ha hb
    cases a with
    | nil => simp at ha
    | cons u a' =>
      cases b with
      | nil => simp at hb
      | cons v b' =>
        simp only [List.zipWith_cons_cons, List.map_cons, List.sum_cons]
        rw [Finset.sum_range_succ']
        simp only [List.getD_cons_succ, List.getD_cons_zero]
        rw [ih a' b' (by simpa using ha) (by simpa using hb)]
        ring

/-- A fully evaluated driver run used to instantiate the driver theorems:
with the always-successful optimizer `constOpt3` (objective value `0`), grid
`[1, 2]`, `maxiter = 5` and `tol = 1`, the first sweep produces the value
vector `[0, 0]` equal to the initial guess, so the distance is `0` and the
loop exits after exactly one sweep. -/
lemma driver_run_eval :
    vfi_driver constOpt3 log0 1 [1, 2] 5 1 =
      ⟨[0, 0], 1, 0, some ([0, 0], [3, 3]),
        [⟨1, [0, 0], [0, 0], [3, 3], 0⟩]⟩ := by
  have hstep : vfi_step constOpt3 log0 1 [1, 2] (vfi_init [1, 2]) =
      ⟨[0, 0], 1, 0, some ([0, 0], [3, 3]),
        [⟨1, [0, 0], [0, 0], [3, 3], 0⟩]⟩ := by
    norm_num [vfi_step, vfi_init, get_V_cur_W_pr, bellman_point, constOpt3,
      List.range_succ, List.replicate]
  rw [vfi_driver, show (5 : ℕ) = 4 + 1 from rfl, vfi_go_succ,
    if_pos (by norm_num [vfi_init]), hstep,
    show (4 : ℕ) = 3 + 1 from rfl, vfi_go_succ, if_neg (by norm_num)]

/-! ### Driver claims -/

/-- Claim C2: in every iteration of the fixed-point driver, the recorded
convergence distance equals the unnormalized sum, over all grid indices `i`,
of `(value_cur[i] - value_next[i])^2` — the squared difference between the
newly computed value vector and the previous one, not divided by `N`. -/
theorem driver_dist_sum_sq (opt : Optimizer) (log : ℚ → ℚ) (beta : ℚ)
    (W_vec : List ℚ) (maxiter : ℕ) (tol : ℚ) :
    ∀ r ∈ (vfi_driver opt log beta W_vec maxiter tol).trace,
      r.dist = ∑ i ∈ Finset.range W_vec.length,
        (r.V_cur.getD i 0 - r.V_prev.getD i 0) ^ 2 := by
  have hstep : ∀ s : VFIState,
      (s.V_next.length = W_vec.length ∧
        ∀ r ∈ s.trace, r.dist = ∑ i ∈ Finset.range W_vec.length,
          (r.V_cur.getD i 0 - r.V_prev.getD i 0) ^ 2) →
      ((vfi_step opt log beta W_vec s).V_next.length = W_vec.length ∧
        ∀ r ∈ (vfi_step opt log beta W_vec s).trace,
          r.dist = ∑ i ∈ Finset.range W_vec.length,
            (r.V_cur.getD i 0 - r.V_prev.getD i 0) ^ 2) := by
    intro s hs
    constructor
    · exact get_V_cur_W_pr_fst_length opt log s.V_next beta W_vec
    · intro r hr
      simp only [vfi_step] at hr
      rcases List.mem_cons.mp hr with rfl | hmem
      · exact sumsq_eq W_vec.length _ _
          (get_V_cur_W_pr_fst_length opt log s.V_next beta W_vec) hs.1
      · exact hs.2 r hmem
  have key := vfi_go_preserves opt log beta W_vec maxiter tol _ hstep maxiter
    (vfi_init W_vec) ⟨by simp [vfi_init], by simp [vfi_init]⟩
  exact key.2

/-- Claim C2, witness: in the concrete run `driver_run_eval`, the single
sweep's recorded distance `0` is the sum of squared differences over the two
grid indices. -/
theorem driver_dist_sum_sq_witness :
    (⟨1, [0, 0], [0, 0], [3, 3], 0⟩ : SweepRecord).dist =
      ∑ i ∈ Finset.range (([1, 2] : List ℚ).length),
        ((⟨1, [0, 0], [0, 0], [3, 3], 0⟩ : SweepRecord).V_cur.getD i 0 -
          (⟨1, [0, 0], [0, 0], [3, 3], 0⟩ : SweepRecord).V_prev.getD i 0) ^ 2 :=
  driver_dist_sum_sq constOpt3 log0 1 [1, 2] 5 1 _
    (by rw [driver_run_eval]; exact List.mem_singleton.mpr rfl)

/-- Claim C3: for every tolerance and every `maxiter ≥ 1` the driver
terminates after at most `maxiter` sweeps — the counter grows by exactly one
per sweep (the trace gains exactly one record per sweep and its length equals
the final counter), the counter never exceeds `maxiter`, and the last
computed value and policy vectors are retained at exit. -/
theorem driver_terminates_within_maxiter (opt : Optimizer) (log : ℚ → ℚ)
    (beta : ℚ) (W_vec : List ℚ) (maxiter : ℕ) (hm : 1 ≤ maxiter) (tol : ℚ)
    (htol : 0 < tol) :
    (vfi_driver opt log beta W_vec maxiter tol).iter_VFI ≤ maxiter ∧
    (vfi_driver opt log beta W_vec maxiter tol).trace.length =
      (vfi_driver opt log beta W_vec maxiter tol).iter_VFI ∧
    ∀ r rest, (vfi_driver opt log beta W_vec maxiter tol).trace = r :: rest →
      (vfi_driver opt log beta W_vec maxiter tol).last =
        some (r.V_cur, r.W_prime) := by
  refine ⟨?_, ?_, ?_⟩
  · exact vfi_go_iter_le opt log beta W_vec maxiter tol maxiter (vfi_init W_vec)
      (by simp [vfi_init])
  · have hstep : ∀ s : VFIState, s.trace.length = s.iter_VFI →
        (vfi_step opt log beta W_vec s).trace.length =
          (vfi_step opt log beta W_vec s).iter_VFI := by
      intro s hs
      simp only [vfi_step, List.length_cons]
      omega
    exact vfi_go_preserves opt log beta W_vec maxiter tol _ hstep maxiter
      (vfi_init W_vec) (by simp [vfi_init])
  · have hstep : ∀ s : VFIState,
        (∀ r rest, s.trace = r :: rest → s.last = some (r.V_cur, r.W_prime)) →
        (∀ r rest, (vfi_step opt log beta W_vec s).trace = r :: rest →
          (vfi_step opt log beta W_vec s).last = some (r.V_cur, r.W_prime)) := by
      intro s _ r rest heq
      simp only [vfi_step, List.cons.injEq] at heq
      rcases heq with ⟨rfl, -⟩
      rfl
    refine vfi_go_preserves opt log beta W_vec maxiter tol _ hstep maxiter
      (vfi_init W_vec) ?_
    intro r rest heq
    simp [vfi_init] at heq

/-- Claim C3, witness: in the concrete run `driver_run_eval` the driver used
one of the five allowed sweeps and retained the last computed value and
policy vectors. -/
theorem driver_terminates_within_maxiter_witness :
    (vfi_driver constOpt3 log0 1 [1, 2] 5 1).iter_VFI ≤ 5 ∧
    (vfi_driver constOpt3 log0 1 [1, 2] 5 1).last = some ([0, 0], [3, 3]) := by
  have h := driver_terminates_within_maxiter constOpt3 log0 1 [1, 2] 5
    (by norm_num) 1 (by norm_num)
  refine ⟨h.1, ?_⟩
  have := h.2.2 ⟨1, [0, 0], [0, 0], [3, 3], 0⟩ []
    (by rw [driver_run_eval])
  simpa using this

/-- Claim C9: the value and policy vectors returned by the Bellman operator
both have exactly `N = len(W_vec)` entries, entry `i` of each is computed
from state `grid[i]` (it is the optimizer's value and iterate at grid point
`i`), and every sweep of the fixed-point driver maintains this length
invariant. -/
theorem bellman_vectors_aligned (opt : Optimizer) (log : ℚ → ℚ)
    (V_next : List ℚ) (beta : ℚ) (W_vec : List ℚ) (maxiter : ℕ) (tol : ℚ) :
    ((get_V_cur_W_pr opt log V_next beta W_vec).1.length = W_vec.length ∧
     (get_V_cur_W_pr opt log V_next beta W_vec).2.length = W_vec.length) ∧
    (∀ i, i < W_vec.length →
      (get_V_cur_W_pr opt log V_next beta W_vec).1.getD i 0 =
        -(bellman_point opt log V_next beta W_vec i).fval ∧
      (get_V_cur_W_pr opt log V_next beta W_vec).2.getD i 0 =
        (bellman_point opt log V_next beta W_vec i).x) ∧
    (∀ r ∈ (vfi_driver opt log beta W_vec maxiter tol).trace,
      r.V_cur.length = W_vec.length ∧ r.W_prime.length = W_vec.length) := by
  refine ⟨⟨get_V_cur_W_pr_fst_length opt log V_next beta W_vec,
    get_V_cur_W_pr_snd_length opt log V_next beta W_vec⟩, ?_, ?_⟩
  · intro i hi
    exact ⟨get_V_cur_W_pr_fst_getD opt log V_next beta W_vec i hi,
      get_V_cur_W_pr_snd_getD opt log V_next beta W_vec i hi⟩
  · have hstep : ∀ s : VFIState,
        (∀ r ∈ s.trace, r.V_cur.length = W_vec.length ∧
          r.W_prime.length = W_vec.length) →
        (∀ r ∈ (vfi_step opt log beta W_vec s).trace,
          r.V_cur.length = W_vec.length ∧
          r.W_prime.length = W_vec.length) := by
      intro s hs r hr
      simp only [vfi_step] at hr
      rcases List.mem_cons.mp hr with rfl | hmem
      · exact ⟨get_V_cur_W_pr_fst_length opt log s.V_next beta W_vec,
          get_V_cur_W_pr_snd_length opt log s.V_next beta W_vec⟩
      · exact hs r hmem
    exact vfi_go_preserves opt log beta W_vec maxiter tol _ hstep maxiter
      (vfi_init W_vec) (by simp [vfi_init])

/-- Claim C9, witness: at the two-point grid `[1, 2]`, both returned vectors
have two entries, entry `0` matches the optimizer output at grid point `0`,
and the sweep recorded in `driver_run_eval` carries two-entry vectors. -/
theorem bellman_vectors_aligned_witness :
    ((get_V_cur_W_pr constOpt3 log0 [0, 0] 1 [1, 2]).1.length = 2 ∧
     (get_V_cur_W_pr constOpt3 log0 [0, 0] 1 [1, 2]).2.length = 2) ∧
    ((get_V_cur_W_pr constOpt3 log0 [0, 0] 1 [1, 2]).1.getD 0 0 =
        -(bellman_point constOpt3 log0 [0, 0] 1 [1, 2] 0).fval ∧
     (get_V_cur_W_pr constOpt3 log0 [0, 0] 1 [1, 2]).2.getD 0 0 =
        (bellman_point constOpt3 log0 [0, 0] 1 [1, 2] 0).x) ∧
    ((⟨1, [0, 0], [0, 0], [3, 3], 0⟩ : SweepRecord).V_cur.length = 2 ∧
     (⟨1, [0, 0], [0, 0], [3, 3], 0⟩ : SweepRecord).W_prime.length = 2) := by
  have h := bellman_vectors_aligned constOpt3 log0 [0, 0] 1 [1, 2] 5 1
  exact ⟨h.1, h.2.1 0 (by norm_num),
    h.2.2 ⟨1, [0, 0], [0, 0], [3, 3], 0⟩
      (by rw [driver_run_eval]; exact List.mem_singleton.mpr rfl)⟩

/-- Claim C10: the driver starts from the finite sentinel distance `10.0`
(not `+∞`); hence if the loop body ever ran then `tol ≤ 10`, for `tol ≤ 10`
(with `maxiter ≥ 1`) the body runs at least once and the final
`V = V_cur.copy()` succeeds, and for `tol > 10` the body never runs and the
final copy fails because `V_cur` was never assigned. -/
theorem driver_sentinel_distance (opt : Optimizer) (log : ℚ → ℚ) (beta : ℚ)
    (W_vec : List ℚ) (maxiter : ℕ) (hm : 1 ≤ maxiter) (tol : ℚ) :
    (vfi_init W_vec).dist = 10 ∧
    (10 < tol →
      (vfi_driver opt log beta W_vec maxiter tol).trace = [] ∧
      vfi_V (vfi_driver opt log beta W_vec maxiter tol) = none) ∧
    (tol ≤ 10 →
      (vfi_driver opt log beta W_vec maxiter tol).trace ≠ [] ∧
      (vfi_V (vfi_driver opt log beta W_vec maxiter tol)).isSome = true) ∧
    ((vfi_driver opt log beta W_vec maxiter tol).trace ≠ [] → tol ≤ 10) := by
  have hno : 10 < tol →
      vfi_driver opt log beta W_vec maxiter tol = vfi_init W_vec := by
    intro h
    refine vfi_go_stop opt log beta W_vec maxiter tol maxiter (vfi_init W_vec) ?_
    intro hc
    have : tol ≤ (10 : ℚ) := hc.2
    linarith
  refine ⟨rfl, fun h => by rw [hno h]; exact ⟨rfl, rfl⟩, fun h => ?_, fun htr => ?_⟩
  · obtain ⟨m, rfl⟩ : ∃ m, maxiter = m + 1 := ⟨maxiter - 1, by omega⟩
    have h1 : vfi_driver opt log beta W_vec (m + 1) tol =
        vfi_go opt log beta W_vec (m + 1) tol m
          (vfi_step opt log beta W_vec (vfi_init W_vec)) := by
      rw [vfi_driver, vfi_go_succ, if_pos]
      exact ⟨by simp [vfi_init], by simpa [vfi_init] using h⟩
    have hstep : ∀ s : VFIState,
        (s.trace ≠ [] ∧ s.last.isSome = true) →
        ((vfi_step opt log beta W_vec s).trace ≠ [] ∧
          (vfi_step opt log beta W_vec s).last.isSome = true) := by
      intro s _
      exact ⟨List.cons_ne_nil _ _, rfl⟩
    have key := vfi_go_preserves opt log beta W_vec (m + 1) tol _ hstep m
      (vfi_step opt log beta W_vec (vfi_init W_vec))
      ⟨List.cons_ne_nil _ _, rfl⟩
    rw [h1]
    refine ⟨key.1, ?_⟩
    obtain ⟨v, hv⟩ := Option.isSome_iff_exists.mp key.2
    simp [vfi_V, hv]
  · by_contra hc
    push_neg at hc
    exact htr (by rw [hno hc]; rfl)

/-- Claim C10, witness: with `tol = 1 ≤ 10` the concrete run executed a
sweep and its final vectors are defined; and the initial distance is the
sentinel `10`. -/
theorem driver_sentinel_distance_witness :
    (vfi_init ([1, 2] : List ℚ)).dist = 10 ∧
    (vfi_driver constOpt3 log0 1 [1, 2] 5 1).trace ≠ [] ∧
    (vfi_V (vfi_driver constOpt3 log0 1 [1, 2] 5 1)).isSome = true := by
  have h := driver_sentinel_distance constOpt3 log0 1 [1, 2] 5 (by norm_num) 1
  exact ⟨h.1, h.2.2.1 (by norm_num)⟩

/-! ### Optimizer claims -/

/-- Claim C1, counterexample: run the Bellman operator with an optimizer
that reports non-convergence (`success = false`) at every grid point of
`[1, 2]`.  The spec-mandated behaviour (`bellman_spec`) aborts with the grid
index `0` and state value `1`; the source's `get_V_cur_W_pr` instead returns
normally, silently storing the non-converged iterate `x0 = 0.5 * W` and
value `-fun` for every grid point — no error is raised or propagated. -/
theorem bellman_silent_accept_counterexample :
    bellman_spec badOpt log0 [0, 0] (9 / 10) [1, 2] = .error (0, 1) ∧
    get_V_cur_W_pr badOpt log0 [0, 0] (9 / 10) [1, 2] =
      ([0, 0], [1 / 2, 1]) ∧
    Except.ok (get_V_cur_W_pr badOpt log0 [0, 0] (9 / 10) [1, 2]) ≠
      bellman_spec badOpt log0 [0, 0] (9 / 10) [1, 2] := by
  have h1 : bellman_spec badOpt log0 [0, 0] (9 / 10) [1, 2] = .error (0, 1) := rfl
  refine ⟨h1, ?_, ?_⟩
  · norm_num [get_V_cur_W_pr, bellman_point, badOpt, W_pr_init_src,
      List.range_succ]
  · rw [h1]
    simp

/-- Claim C1, amended: the Bellman operator never consults the optimizer's
convergence flag — its output is unchanged when every per-point `success`
flag is altered arbitrarily (only `x` and `fun` matter), so a non-converged
inner optimization is silently accepted and nothing is propagated to the
fixed-point driver. -/
theorem bellman_output_ignores_success (opt opt' : Optimizer) (log : ℚ → ℚ)
    (V_next : List ℚ) (beta : ℚ) (W_vec : List ℚ)
    (h : ∀ f x0 lb ub, (opt f x0 lb ub).x = (opt' f x0 lb ub).x ∧
      (opt f x0 lb ub).fval = (opt' f x0 lb ub).fval) :
    get_V_cur_W_pr opt log V_next beta W_vec =
      get_V_cur_W_pr opt' log V_next beta W_vec := by
  simp only [get_V_cur_W_pr, bellman_point]
  refine Prod.ext ?_ ?_
  · refine List.map_congr_left ?_
    intro a _
    rw [(h _ _ _ _).2]
  · refine List.map_congr_left ?_
    intro a _
    rw [(h _ _ _ _).1]

/-- Claim C1, witness for the amended statement: the operator's output with
the always-successful optimizer `constOpt3` coincides with its output with
`constOpt3f`, which differs only by reporting failure everywhere. -/
theorem bellman_output_ignores_success_witness :
    get_V_cur_W_pr constOpt3 log0 [0, 0] 1 [1, 2] =
      get_V_cur_W_pr constOpt3f log0 [0, 0] 1 [1, 2] :=
  bellman_output_ignores_success constOpt3 constOpt3f log0 [0, 0] 1 [1, 2]
    (fun _ _ _ _ => ⟨rfl, rfl⟩)

/-- Claim C5: when the optimizer respects its bounds (as the bound-constrained
L-BFGS-B does: the returned iterate lies in `[lb, ub]` whenever the interval
is nonempty) and the state `grid[i]` is at least `2e-10` so the interval
`[1e-10, grid[i] - 1e-10]` is nonempty, the policy entry returned by the
Bellman operator satisfies `0 < policy[i] < grid[i]` strictly, so the
log-utility argument `grid[i] - policy[i]` is strictly positive. -/
theorem policy_strictly_feasible (opt : Optimizer) (log : ℚ → ℚ)
    (V_next : List ℚ) (beta : ℚ) (W_vec : List ℚ)
    (hopt : ∀ f x0 lb ub, lb ≤ ub →
      lb ≤ (opt f x0 lb ub).x ∧ (opt f x0 lb ub).x ≤ ub)
    (i : ℕ) (hi : i < W_vec.length) (hg : 2 * eps10 ≤ W_vec.getD i 0) :
    0 < (get_V_cur_W_pr opt log V_next beta W_vec).2.getD i 0 ∧
    (get_V_cur_W_pr opt log V_next beta W_vec).2.getD i 0 < W_vec.getD i 0 ∧
    0 < W_vec.getD i 0 - (get_V_cur_W_pr opt log V_next beta W_vec).2.getD i 0 := by
  rw [get_V_cur_W_pr_snd_getD opt log V_next beta W_vec i hi]
  have heps : (0 : ℚ) < eps10 := by norm_num [eps10]
  have hb : W_lb_src ≤ W_ub_src (W_vec.getD i 0) := by
    simp only [W_lb_src, W_ub_src]
    linarith
  have hbounds := hopt
    (fun W_pr => get_neg_V_cur log W_pr beta (W_vec.getD i 0) W_vec V_next)
    (W_pr_init_src (W_vec.getD i 0)) W_lb_src (W_ub_src (W_vec.getD i 0)) hb
  have heq : bellman_point opt log V_next beta W_vec i =
      opt (fun W_pr => get_neg_V_cur log W_pr beta (W_vec.getD i 0) W_vec V_next)
        (W_pr_init_src (W_vec.getD i 0)) W_lb_src (W_ub_src (W_vec.getD i 0)) :=
    rfl
  rw [heq]
  rcases hbounds with ⟨hl, hu⟩
  have e1 : W_lb_src = eps10 := rfl
  have e2 : W_ub_src (W_vec.getD i 0) = W_vec.getD i 0 - eps10 := rfl
  refine ⟨by linarith, by linarith, by linarith⟩

/-- Claim C5, witness: with the bound-respecting `clampOpt` on the grid
`[1, 2]`, the policy entry at index `0` lies strictly between `0` and the
state `1`. -/
theorem policy_strictly_feasible_witness :
    0 < (get_V_cur_W_pr clampOpt log0 [0, 0] 1 [1, 2]).2.getD 0 0 ∧
    (get_V_cur_W_pr clampOpt log0 [0, 0] 1 [1, 2]).2.getD 0 0 <
      ([1, 2] : List ℚ).getD 0 0 ∧
    0 < ([1, 2] : List ℚ).getD 0 0 -
      (get_V_cur_W_pr clampOpt log0 [0, 0] 1 [1, 2]).2.getD 0 0 :=
  policy_strictly_feasible clampOpt log0 [0, 0] 1 [1, 2]
    (fun _f _x0 lb ub h =>
      ⟨le_max_left _ _, max_le h (min_le_right _ _)⟩)
    0 (by norm_num) (by norm_num [eps10])

/-- Claim C8: for every grid point, the per-state optimizer is invoked on the
closed interval `[eps, state - eps]` with `eps = 1e-10`, its initial guess
`0.5 * state` equals the midpoint of these bounds, and every point of the
search interval differs from both `0` and `state` — so the objective is never
evaluated exactly at `0` or at `state` by a bound-respecting optimizer. -/
theorem search_bounds_and_midpoint (opt : Optimizer) (log : ℚ → ℚ)
    (V_next : List ℚ) (beta : ℚ) (W_vec : List ℚ) (ind : ℕ)
    (W_cur : ℚ) (h : 0 < W_cur) :
    W_lb_src = 1 / 10 ^ 10 ∧
    W_ub_src W_cur = W_cur - 1 / 10 ^ 10 ∧
    W_pr_init_src W_cur = (W_lb_src + W_ub_src W_cur) / 2 ∧
    W_pr_init_src W_cur = (1 / 2) * W_cur ∧
    (∀ z, W_lb_src ≤ z → z ≤ W_ub_src W_cur → z ≠ 0 ∧ z ≠ W_cur) ∧
    bellman_point opt log V_next beta W_vec ind =
      opt (fun W_pr =>
          get_neg_V_cur log W_pr beta (W_vec.getD ind 0) W_vec V_next)
        (W_pr_init_src (W_vec.getD ind 0)) W_lb_src
        (W_ub_src (W_vec.getD ind 0)) := by
  refine ⟨rfl, rfl, ?_, rfl, ?_, rfl⟩
  · simp only [W_pr_init_src, W_lb_src, W_ub_src, eps10]
    ring
  · intro z h1 h2
    have heps : (0 : ℚ) < eps10 := by norm_num [eps10]
    simp only [W_lb_src, W_ub_src] at h1 h2
    constructor
    · intro hz
      rw [hz] at h1
      linarith
    · intro hz
      rw [hz] at h2
      linarith

/-- Claim C8, witness: at state `1` the initial guess is the midpoint of the
bounds, and the interior point `1/4` of the search interval differs from `0`
and from the state. -/
theorem search_bounds_and_midpoint_witness :
    W_pr_init_src 1 = (W_lb_src + W_ub_src 1) / 2 ∧
    ((1 : ℚ) / 4 ≠ 0 ∧ (1 : ℚ) / 4 ≠ 1) :=
  ⟨(search_bounds_and_midpoint constOpt3 log0 [0] 1 [1] 0 1 one_pos).2.2.1,
   (search_bounds_and_midpoint constOpt3 log0 [0] 1 [1] 0 1 one_pos).2.2.2.2.1
     (1 / 4) (by norm_num [W_lb_src, eps10]) (by norm_num [W_ub_src, eps10])⟩
